import Mathlib

/-!
Verification of the Rotation & Playout Scheduling Engine of the
neon-frequency radio-automation program.

The Python sources are shallowly embedded:
* `datetime` timestamps become integers measured in minutes
  (`timedelta(minutes=m)` is `m`, `timedelta(hours=h)` is `60 * h`);
  Python floats (ramp lengths) likewise become integers at second resolution;
* Python strings become Lean `String`s (logically a list of characters);
  where character-level scanning matters (the playlist parser) we work on
  `List Char` directly;
* fallible operations and `None` become `Option`;
* the stateful `RotationEngine` methods become pure functions taking the
  current history list and returning the result / new history.
-/

set_option autoImplicit false

namespace NeonFrequency

/- Timestamps are `Int`s, in minutes. `datetime` values are discrete
(microsecond resolution); every duration constant in the source is a whole
number of minutes, so an integer-minute timeline is a faithful
fixed-resolution embedding (all comparisons scale). -/

/-- Python `str.lower()` (ASCII case folding, which is what the track fields use). -/
def lowerStr (s : String) : String :=
  String.mk (s.data.map Char.toLower)

/-- Music genre categories (music_library.py, class Genre). -/
inductive Genre where
  | ELECTRONIC | SYNTHWAVE | TRANCE | HOUSE | TECHNO | DRUM_AND_BASS
  | HAPPY_HARDCORE | AMBIENT | LOFI | HIP_HOP | POP | ROCK | OTHER
  deriving DecidableEq

/-- Track energy levels (music_library.py, class Energy). -/
inductive Energy where
  | LOW | MEDIUM_LOW | MEDIUM | MEDIUM_HIGH | HIGH
  deriving DecidableEq

/-- Complete metadata for a music track (music_library.py, class TrackMetadata).
Python floats are modelled as integers (second resolution); `Optional[X]` as `Option X`. -/
structure TrackMetadata where
  file_path : String
  title : String
  artist : String
  album : Option String := none
  genre : Genre := Genre.OTHER
  bpm : Option Int := none
  key : Option String := none
  duration_seconds : Int := 0
  energy : Energy := Energy.MEDIUM
  year : Option Int := none
  sample_rate : Int := 44100
  bitrate : Int := 320
  loudness_lufs : Option Int := none
  last_played : Option Int := none
  play_count : Int := 0
  rotation_category : String := "normal"
  intro_seconds : Int := 0
  outro_seconds : Int := 0
  hook_start : Option Int := none
  tags : List String := []
  mood : List String := []
  is_generated : Bool := false
  generation_source : Option String := none
  generation_prompt : Option String := none
  file_hash : Option String := none
  deriving DecidableEq

/-- Rules for track selection (rotation.py, class RotationRules). All fields are
Python ints, with the defaults of the source. -/
structure RotationRules where
  artist_separation_minutes : Int := 60
  track_separation_minutes : Int := 240
  same_title_separation_minutes : Int := 120
  dmca_artist_limit_3hours : Int := 3
  dmca_album_limit_3hours : Int := 2
  deriving DecidableEq

/-- Record of a played track (rotation.py, class PlayHistoryItem). -/
structure PlayHistoryItem where
  track : TrackMetadata
  played_at : Int
  deriving DecidableEq

/-- `RotationEngine.add_to_history`: append, then prune entries whose
`played_at` is not newer than `now - 24h` (the source computes
`cutoff = datetime.now() - timedelta(hours=24)` and keeps `h.played_at > cutoff`;
the wall clock is the explicit `now` argument here). 24 hours = 1440 minutes. -/
def add_to_history (history : List PlayHistoryItem) (track : TrackMetadata)
    (played_at : Int) (now : Int) : List PlayHistoryItem :=
  (history ++ [PlayHistoryItem.mk track played_at]).filter
    (fun h => now - 1440 < h.played_at)

/-- The identity ("hash or path") match of `RotationEngine.check_separation`:
equal file hashes when both are present (never `None == None`), or equal paths. -/
def identityMatch (item cand : TrackMetadata) : Bool :=
  (match item.file_hash, cand.file_hash with
   | some h1, some h2 => h1 == h2
   | _, _ => false)
  || (item.file_path == cand.file_path)

/-- First loop of `check_separation`, over `reversed(self.history)`: breaks at
the `track_separation` cutoff; inside the window, an identity match or a
same-title match inside the `same_title_separation` window returns `False`.
The result `true` means the loop fell through without returning. -/
def trackTitleLoop (rules : RotationRules) (track : TrackMetadata)
    (simulated_time : Int) : List PlayHistoryItem → Bool
  | [] => true
  | item :: rest =>
    if item.played_at < simulated_time - rules.track_separation_minutes then
      true
    else if identityMatch item.track track then
      false
    else if lowerStr item.track.title = lowerStr track.title
            ∧ item.played_at > simulated_time - rules.same_title_separation_minutes then
      false
    else
      trackTitleLoop rules track simulated_time rest

/-- Second loop of `check_separation`, over `reversed(self.history)`: breaks at
the `artist_separation` cutoff; inside the window a case-insensitive artist
match returns `False`. -/
def artistLoop (rules : RotationRules) (track : TrackMetadata)
    (simulated_time : Int) : List PlayHistoryItem → Bool
  | [] => true
  | item :: rest =>
    if item.played_at < simulated_time - rules.artist_separation_minutes then
      true
    else if lowerStr item.track.artist = lowerStr track.artist then
      false
    else
      artistLoop rules track simulated_time rest

/-- `RotationEngine.check_separation`: returns `True` iff neither backward scan
returns `False` (the Python method runs the first loop to completion, then the
second; any `return False` short-circuits, which `&&` models exactly). -/
def check_separation (rules : RotationRules) (history : List PlayHistoryItem)
    (track : TrackMetadata) (simulated_time : Int) : Bool :=
  trackTitleLoop rules track simulated_time history.reverse
  && artistLoop rules track simulated_time history.reverse

/-- Python truthiness of the optional `album` string (`None` and `""` are falsy). -/
def albumTruthy : Option String → Bool
  | none => false
  | some s => !(s == "")

/-- The album comparison of `check_dmca`:
`track.album and item.track.album and item.track.album.lower() == track.album.lower()`. -/
def albumsMatch (cand item : Option String) : Bool :=
  albumTruthy cand && albumTruthy item
  && ((item.map lowerStr) == (cand.map lowerStr))

/-- The counting loop of `check_dmca` over `reversed(self.history)`: breaks at
`window_start`, otherwise accumulates (artist_count, album_count). -/
def dmcaLoop (track : TrackMetadata) (window_start : Int) :
    List PlayHistoryItem → Nat × Nat
  | [] => (0, 0)
  | item :: rest =>
    if item.played_at < window_start then
      (0, 0)
    else
      let p := dmcaLoop track window_start rest
      (p.1 + (if lowerStr item.track.artist = lowerStr track.artist then 1 else 0),
       p.2 + (if albumsMatch track.album item.track.album then 1 else 0))

/-- `RotationEngine.check_dmca`: window is the trailing 3 hours (180 minutes);
returns `False` when either count has reached its limit. -/
def check_dmca (rules : RotationRules) (history : List PlayHistoryItem)
    (track : TrackMetadata) (simulated_time : Int) : Bool :=
  let counts := dmcaLoop track (simulated_time - 180) history.reverse
  if (counts.1 : Int) ≥ rules.dmca_artist_limit_3hours then false
  else if (counts.2 : Int) ≥ rules.dmca_album_limit_3hours then false
  else true

/-- The strict pass of `select_track`: first candidate (in shuffled pool order)
passing `check_separation` and, when `enforce_dmca`, `check_dmca`. -/
def select_strict (rules : RotationRules) (history : List PlayHistoryItem)
    (simulated_time : Int) (enforce_dmca : Bool) :
    List TrackMetadata → Option TrackMetadata
  | [] => none
  | track :: rest =>
    if !check_separation rules history track simulated_time then
      select_strict rules history simulated_time enforce_dmca rest
    else if enforce_dmca && !check_dmca rules history track simulated_time then
      select_strict rules history simulated_time enforce_dmca rest
    else
      some track

/-- The degraded-pass membership test of `select_track`:
`next((h for h in reversed(self.history) if h.track.file_path == track.file_path
and h.played_at > track_cutoff), None)`. -/
def degradedLastPlay (rules : RotationRules) (history : List PlayHistoryItem)
    (track : TrackMetadata) (simulated_time : Int) : Option PlayHistoryItem :=
  history.reverse.find? (fun h =>
    (h.track.file_path == track.file_path)
    && decide (h.played_at > simulated_time - rules.track_separation_minutes))

/-- The degraded pass of `select_track`: first candidate (same shuffled order)
whose literal track was not played within `track_separation`. -/
def select_degraded (rules : RotationRules) (history : List PlayHistoryItem)
    (simulated_time : Int) : List TrackMetadata → Option TrackMetadata
  | [] => none
  | track :: rest =>
    if (degradedLastPlay rules history track simulated_time).isNone then
      some track
    else
      select_degraded rules history simulated_time rest

/-- `RotationEngine.select_track`, taking the already-shuffled pool as input
(the source shuffles a copy of `candidates` with `random.shuffle`; the shuffle
is modelled as a permutation supplied by the environment). Returns `None`
(`Exhausted`) when both passes fail; never raises. -/
def select_track (rules : RotationRules) (history : List PlayHistoryItem)
    (pool : List TrackMetadata) (simulated_time : Int)
    (enforce_dmca : Bool) : Option TrackMetadata :=
  match select_strict rules history simulated_time enforce_dmca pool with
  | some track => some track
  | none => select_degraded rules history simulated_time pool

/-- History sorted nondecreasing by `played_at` (the invariant of the engine:
insertion is sequential in simulated time). -/
def HistorySorted (history : List PlayHistoryItem) : Prop :=
  history.Pairwise (fun a b => a.played_at ≤ b.played_at)

end NeonFrequency

namespace NeonFrequency

/-! ### Helper lemmas about the backward scans -/

theorem sortedDesc_of_sorted {history : List PlayHistoryItem}
    (h : HistorySorted history) :
    history.reverse.Pairwise (fun a b => b.played_at ≤ a.played_at) :=
  List.pairwise_reverse.mpr h

theorem identityMatch_true {item cand : TrackMetadata}
    (h : (∃ hsh, item.file_hash = some hsh ∧ cand.file_hash = some hsh)
       ∨ item.file_path = cand.file_path) :
    identityMatch item cand = true := by
  rcases h with ⟨hsh, h1, h2⟩ | h
  · simp [identityMatch, h1, h2]
  · simp [identityMatch, h]

theorem trackTitleLoop_eq_false_of_id {rules : RotationRules} {track : TrackMetadata}
    {t : Int} {r : List PlayHistoryItem}
    (hr : r.Pairwise (fun a b => b.played_at ≤ a.played_at))
    {item : PlayHistoryItem} (hmem : item ∈ r)
    (hid : identityMatch item.track track = true)
    (hwin : t - rules.track_separation_minutes ≤ item.played_at) :
    trackTitleLoop rules track t r = false := by
  induction r with
  | nil => cases hmem
  | cons hd tl ih =>
    have hnb : ¬ hd.played_at < t - rules.track_separation_minutes := by
      rcases List.mem_cons.mp hmem with h | h
      · subst h; omega
      · have := List.rel_of_pairwise_cons hr h
        omega
    rw [trackTitleLoop, if_neg hnb]
    by_cases hh : identityMatch hd.track track = true
    · rw [if_pos hh]
    · rw [if_neg hh]
      have hmem2 : item ∈ tl := by
        rcases List.mem_cons.mp hmem with h | h
        · exact absurd (h ▸ hid) hh
        · exact h
      by_cases ht : lowerStr hd.track.title = lowerStr track.title
          ∧ hd.played_at > t - rules.same_title_separation_minutes
      · rw [if_pos ht]
      · rw [if_neg ht]
        exact ih hr.of_cons hmem2

theorem trackTitleLoop_eq_false_of_title {rules : RotationRules} {track : TrackMetadata}
    {t : Int} {r : List PlayHistoryItem}
    (hr : r.Pairwise (fun a b => b.played_at ≤ a.played_at))
    {item : PlayHistoryItem} (hmem : item ∈ r)
    (htitle : lowerStr item.track.title = lowerStr track.title)
    (hwin1 : t - rules.track_separation_minutes ≤ item.played_at)
    (hwin2 : t - rules.same_title_separation_minutes < item.played_at) :
    trackTitleLoop rules track t r = false := by
  induction r with
  | nil => cases hmem
  | cons hd tl ih =>
    have hnb : ¬ hd.played_at < t - rules.track_separation_minutes := by
      rcases List.mem_cons.mp hmem with h | h
      · subst h; omega
      · have := List.rel_of_pairwise_cons hr h
        omega
    rw [trackTitleLoop, if_neg hnb]
    by_cases hh : identityMatch hd.track track = true
    · rw [if_pos hh]
    · rw [if_neg hh]
      by_cases ht : lowerStr hd.track.title = lowerStr track.title
          ∧ hd.played_at > t - rules.same_title_separation_minutes
      · rw [if_pos ht]
      · rw [if_neg ht]
        have hmem2 : item ∈ tl := by
          rcases List.mem_cons.mp hmem with h | h
          · exact absurd ⟨h ▸ htitle, by rw [← h]; exact hwin2⟩ ht
          · exact h
        exact ih hr.of_cons hmem2

theorem artistLoop_eq_false_of_artist {rules : RotationRules} {track : TrackMetadata}
    {t : Int} {r : List PlayHistoryItem}
    (hr : r.Pairwise (fun a b => b.played_at ≤ a.played_at))
    {item : PlayHistoryItem} (hmem : item ∈ r)
    (hartist : lowerStr item.track.artist = lowerStr track.artist)
    (hwin : t - rules.artist_separation_minutes ≤ item.played_at) :
    artistLoop rules track t r = false := by
  induction r with
  | nil => cases hmem
  | cons hd tl ih =>
    have hnb : ¬ hd.played_at < t - rules.artist_separation_minutes := by
      rcases List.mem_cons.mp hmem with h | h
      · subst h; omega
      · have := List.rel_of_pairwise_cons hr h
        omega
    rw [artistLoop, if_neg hnb]
    by_cases ha : lowerStr hd.track.artist = lowerStr track.artist
    · rw [if_pos ha]
    · rw [if_neg ha]
      have hmem2 : item ∈ tl := by
        rcases List.mem_cons.mp hmem with h | h
        · exact absurd (h ▸ hartist) ha
        · exact h
      exact ih hr.of_cons hmem2

/-- C1: for every time-ordered play history, rules, candidate `track` and time
`t`: if some history entry with the same identity (equal content hash on both
sides, or equal file path) was played within `track_separation` of `t`, or some
entry with the same artist (case-insensitively) was played within
`artist_separation` of `t`, then `check_separation` returns `False`. -/
theorem check_separation_blocks_recent_identity_and_artist
    (rules : RotationRules) (history : List PlayHistoryItem)
    (track : TrackMetadata) (t : Int)
    (hsorted : HistorySorted history)
    (h : (∃ item ∈ history,
            ((∃ hsh, item.track.file_hash = some hsh ∧ track.file_hash = some hsh)
              ∨ item.track.file_path = track.file_path)
            ∧ t - rules.track_separation_minutes ≤ item.played_at)
       ∨ (∃ item ∈ history,
            lowerStr item.track.artist = lowerStr track.artist
            ∧ t - rules.artist_separation_minutes ≤ item.played_at)) :
    check_separation rules history track t = false := by
  have hrev := sortedDesc_of_sorted hsorted
  rcases h with ⟨item, hmem, hid, hwin⟩ | ⟨item, hmem, hart, hwin⟩
  · have := trackTitleLoop_eq_false_of_id
      hrev (List.mem_reverse.mpr hmem) (identityMatch_true hid) hwin
    simp [check_separation, this]
  · have := artistLoop_eq_false_of_artist
      hrev (List.mem_reverse.mpr hmem) hart hwin
    simp [check_separation, this]

def c1track : TrackMetadata :=
  { file_path := "/music/a.mp3", title := "Song", artist := "The Band" }

def c1item : PlayHistoryItem :=
  { track := { file_path := "/music/a.mp3", title := "Song", artist := "the band" },
    played_at := -30 }

theorem check_separation_blocks_recent_identity_and_artist_witness :
    check_separation {} [c1item] c1track 0 = false :=
  check_separation_blocks_recent_identity_and_artist {} [c1item] c1track 0
    (by simp [HistorySorted]) (Or.inl ⟨c1item, by decide, Or.inr (by decide), by decide⟩)

end NeonFrequency
namespace NeonFrequency

/-! ### The rights-window counting scan -/

/-- An entry that `check_dmca` counts toward the artist total: inside the
window (not past the break point) and same artist, case-insensitively. -/
def dmcaArtistHit (track : TrackMetadata) (window_start : Int)
    (item : PlayHistoryItem) : Bool :=
  decide (window_start ≤ item.played_at)
  && decide (lowerStr item.track.artist = lowerStr track.artist)

/-- An entry that `check_dmca` counts toward the album total. -/
def dmcaAlbumHit (track : TrackMetadata) (window_start : Int)
    (item : PlayHistoryItem) : Bool :=
  decide (window_start ≤ item.played_at)
  && albumsMatch track.album item.track.album

/-- On a backward-sorted list the break-early counting loop counts exactly the
in-window hits. -/
theorem dmcaLoop_eq_counts (track : TrackMetadata) (ws : Int)
    {r : List PlayHistoryItem}
    (hr : r.Pairwise (fun a b => b.played_at ≤ a.played_at)) :
    dmcaLoop track ws r
      = (r.countP (dmcaArtistHit track ws), r.countP (dmcaAlbumHit track ws)) := by
  induction r with
  | nil => simp [dmcaLoop]
  | cons hd tl ih =>
    rw [dmcaLoop]
    by_cases hb : hd.played_at < ws
    · rw [if_pos hb]
      have hall : ∀ a ∈ hd :: tl, a.played_at < ws := by
        intro a ha
        rcases List.mem_cons.mp ha with h | h
        · subst h; exact hb
        · have := List.rel_of_pairwise_cons hr h
          omega
      have h1 : List.countP (dmcaArtistHit track ws) (hd :: tl) = 0 := by
        rw [List.countP_eq_zero]
        intro a ha
        simp only [dmcaArtistHit, Bool.and_eq_true, decide_eq_true_eq, not_and]
        intro hws
        exact absurd (hall a ha) (not_lt.mpr hws)
      have h2 : List.countP (dmcaAlbumHit track ws) (hd :: tl) = 0 := by
        rw [List.countP_eq_zero]
        intro a ha
        simp only [dmcaAlbumHit, Bool.and_eq_true, decide_eq_true_eq, not_and]
        intro hws
        exact absurd (hall a ha) (not_lt.mpr hws)
      rw [h1, h2]
    · rw [if_neg hb]
      have hws : ws ≤ hd.played_at := not_lt.mp hb
      have ha : dmcaArtistHit track ws hd
          = decide (lowerStr hd.track.artist = lowerStr track.artist) := by
        simp [dmcaArtistHit, hws]
      have hb2 : dmcaAlbumHit track ws hd = albumsMatch track.album hd.track.album := by
        simp [dmcaAlbumHit, hws]
      rw [ih hr.of_cons, List.countP_cons, List.countP_cons, ha, hb2]
      simp

/-- C2: for every time-ordered play history, track X and time t: if the number
of plays by X's artist (case-insensitive) in the trailing 3-hour rights window
before t has already reached `dmca_artist_limit_3hours`, or the number of
same-album plays (case-insensitive, album known on both sides) in that window
has already reached `dmca_album_limit_3hours`, then `check_dmca` returns
`False`. -/
theorem check_dmca_blocks_at_limit
    (rules : RotationRules) (history : List PlayHistoryItem)
    (track : TrackMetadata) (t : Int)
    (hsorted : HistorySorted history)
    (h : (rules.dmca_artist_limit_3hours ≤
            (history.countP (fun item =>
              decide (t - 180 ≤ item.played_at) && decide (item.played_at ≤ t)
              && decide (lowerStr item.track.artist = lowerStr track.artist)) : Int))
       ∨ (rules.dmca_album_limit_3hours ≤
            (history.countP (fun item =>
              decide (t - 180 ≤ item.played_at) && decide (item.played_at ≤ t)
              && albumsMatch track.album item.track.album) : Int))) :
    check_dmca rules history track t = false := by
  have hrev := sortedDesc_of_sorted hsorted
  have hcounts := dmcaLoop_eq_counts track (t - 180) hrev
  unfold check_dmca
  rw [hcounts]
  rcases h with h | h
  · have hle : history.countP (fun item =>
        decide (t - 180 ≤ item.played_at) && decide (item.played_at ≤ t)
        && decide (lowerStr item.track.artist = lowerStr track.artist))
        ≤ history.reverse.countP (dmcaArtistHit track (t - 180)) := by
      rw [(List.reverse_perm history).countP_eq]
      apply List.countP_mono_left
      intro a _ hp
      simp only [Bool.and_eq_true, decide_eq_true_eq] at hp
      simp only [dmcaArtistHit, Bool.and_eq_true, decide_eq_true_eq]
      exact ⟨hp.1.1, hp.2⟩
    have : rules.dmca_artist_limit_3hours
        ≤ ((history.reverse.countP (dmcaArtistHit track (t - 180)) : Nat) : Int) := by
      omega
    rw [if_pos this]
  · by_cases hA : ((history.reverse.countP (dmcaArtistHit track (t - 180)) : Nat) : Int)
        ≥ rules.dmca_artist_limit_3hours
    · rw [if_pos hA]
    · have hle : history.countP (fun item =>
          decide (t - 180 ≤ item.played_at) && decide (item.played_at ≤ t)
          && albumsMatch track.album item.track.album)
          ≤ history.reverse.countP (dmcaAlbumHit track (t - 180)) := by
        rw [(List.reverse_perm history).countP_eq]
        apply List.countP_mono_left
        intro a _ hp
        simp only [Bool.and_eq_true, decide_eq_true_eq] at hp
        simp only [dmcaAlbumHit, Bool.and_eq_true, decide_eq_true_eq]
        exact ⟨hp.1.1, hp.2⟩
      have hB : rules.dmca_album_limit_3hours
          ≤ ((history.reverse.countP (dmcaAlbumHit track (t - 180)) : Nat) : Int) := by
        omega
      rw [if_neg hA, if_pos hB]

def c2track : TrackMetadata :=
  { file_path := "/music/new.mp3", title := "New Song", artist := "Same Artist" }

def c2hist : List PlayHistoryItem :=
  [ { track := { file_path := "/music/p1.mp3", title := "P1", artist := "same artist" },
      played_at := -170 },
    { track := { file_path := "/music/p2.mp3", title := "P2", artist := "SAME ARTIST" },
      played_at := -90 },
    { track := { file_path := "/music/p3.mp3", title := "P3", artist := "Same Artist" },
      played_at := -5 } ]

theorem check_dmca_blocks_at_limit_witness :
    check_dmca {} c2hist c2track 0 = false :=
  check_dmca_blocks_at_limit {} c2hist c2track 0
    (by simp [HistorySorted, c2hist]) (Or.inl (by decide))

/-! ### History recording -/

/-- C8: `add_to_history` is total (it always succeeds: it is a Lean function),
the resulting history is exactly the appended history with every entry older
than the 24-hour horizon pruned (membership characterisation), and in
particular no entry at or beyond the horizon survives. -/
theorem add_to_history_appends_and_prunes
    (history : List PlayHistoryItem) (track : TrackMetadata)
    (played_at now : Int) :
    (∀ e ∈ add_to_history history track played_at now, now - 1440 < e.played_at)
    ∧ ∀ e, (e ∈ add_to_history history track played_at now
        ↔ (e ∈ history ∨ e = PlayHistoryItem.mk track played_at)
          ∧ now - 1440 < e.played_at) := by
  constructor
  · intro e he
    have h := (List.mem_filter.mp he).2
    simpa using h
  · intro e
    simp only [add_to_history, List.mem_filter, List.mem_append, List.mem_singleton,
      decide_eq_true_eq]

theorem add_to_history_appends_and_prunes_witness :
    PlayHistoryItem.mk c1track (-10) ∈ add_to_history [] c1track (-10) 0 :=
  ((add_to_history_appends_and_prunes [] c1track (-10) 0).2
    (PlayHistoryItem.mk c1track (-10))).mpr ⟨Or.inr rfl, by decide⟩

/-- A sequence of `add_to_history` calls, each `(track, played_at, now)`. -/
def runHistory (init : List PlayHistoryItem) :
    List (TrackMetadata × Int × Int) → List PlayHistoryItem
  | [] => init
  | c :: cs => runHistory (add_to_history init c.1 c.2.1 c.2.2) cs

/-- One `add_to_history` call keeps the history sorted when the new play is no
earlier than everything recorded so far (append preserves sortedness, and
pruning is a filter, which preserves it as well). -/
theorem add_to_history_sorted {history : List PlayHistoryItem}
    {track : TrackMetadata} {played_at now : Int}
    (hs : HistorySorted history)
    (hle : ∀ e ∈ history, e.played_at ≤ played_at) :
    HistorySorted (add_to_history history track played_at now) := by
  unfold HistorySorted add_to_history
  apply List.Pairwise.filter
  rw [List.pairwise_append]
  refine ⟨hs, List.pairwise_singleton _ _, ?_⟩
  intro a ha b hb
  have : b = PlayHistoryItem.mk track played_at := by simpa using hb
  subst this
  exact hle a ha

/-- C9: for every sequence of `add_to_history` calls whose `played_at`
arguments are nondecreasing (and no earlier than the initial history), the
play history is sorted nondecreasing by `played_at` after every call. -/
theorem history_stays_sorted
    (init : List PlayHistoryItem) (calls : List (TrackMetadata × Int × Int))
    (hinit : HistorySorted init)
    (hmono : (calls.map (fun c => c.2.1)).Pairwise (· ≤ ·))
    (hge : ∀ e ∈ init, ∀ c ∈ calls, e.played_at ≤ c.2.1) :
    ∀ n, HistorySorted (runHistory init (calls.take n)) := by
  induction calls generalizing init with
  | nil =>
    intro n
    simpa [runHistory] using hinit
  | cons c cs ih =>
    intro n
    cases n with
    | zero => simpa [runHistory] using hinit
    | succ m =>
      rw [List.take_succ_cons]
      show HistorySorted (runHistory (add_to_history init c.1 c.2.1 c.2.2) (cs.take m))
      have hmono2 : (cs.map (fun c => c.2.1)).Pairwise (· ≤ ·) := by
        rw [List.map_cons] at hmono
        exact hmono.of_cons
      refine ih _ ?_ hmono2 ?_ m
      · exact add_to_history_sorted hinit
          (fun e he => hge e he c (List.mem_cons_self _ _))
      · intro e he c2 hc2
        rcases (((add_to_history_appends_and_prunes init c.1 c.2.1 c.2.2).2 e).mp he).1
          with h | h
        · exact hge e h c2 (List.mem_cons_of_mem _ hc2)
        · subst h
          rw [List.map_cons] at hmono
          exact List.rel_of_pairwise_cons hmono (List.mem_map_of_mem _ hc2)

def c9calls : List (TrackMetadata × Int × Int) :=
  [(c1track, -10, 0), (c2track, 5, 0), (c2track, 5, 0)]

theorem history_stays_sorted_witness :
    HistorySorted (runHistory [] (c9calls.take 3)) :=
  history_stays_sorted [] c9calls (by simp [HistorySorted]) (by decide)
    (by simp) 3

end NeonFrequency
namespace NeonFrequency

/-! ### Selection: strict pass, degraded pass -/

theorem select_strict_mem {rules : RotationRules} {history : List PlayHistoryItem}
    {t : Int} {enf : Bool} :
    ∀ {pool : List TrackMetadata} {x : TrackMetadata},
      select_strict rules history t enf pool = some x → x ∈ pool := by
  intro pool
  induction pool with
  | nil => intro x h; simp [select_strict] at h
  | cons hd tl ih =>
    intro x h
    rw [select_strict] at h
    by_cases h1 : (!check_separation rules history hd t) = true
    · rw [if_pos h1] at h
      exact List.mem_cons_of_mem _ (ih h)
    · rw [if_neg h1] at h
      by_cases h2 : (enf && !check_dmca rules history hd t) = true
      · rw [if_pos h2] at h
        exact List.mem_cons_of_mem _ (ih h)
      · rw [if_neg h2] at h
        rw [← Option.some.inj h]
        exact List.mem_cons_self _ _

theorem select_degraded_mem {rules : RotationRules} {history : List PlayHistoryItem}
    {t : Int} :
    ∀ {pool : List TrackMetadata} {x : TrackMetadata},
      select_degraded rules history t pool = some x → x ∈ pool := by
  intro pool
  induction pool with
  | nil => intro x h; simp [select_degraded] at h
  | cons hd tl ih =>
    intro x h
    rw [select_degraded] at h
    by_cases h1 : (degradedLastPlay rules history hd t).isNone = true
    · rw [if_pos h1] at h
      rw [← Option.some.inj h]
      exact List.mem_cons_self _ _
    · rw [if_neg h1] at h
      exact List.mem_cons_of_mem _ (ih h)

/-- A candidate that passes `check_separation` has no literal play inside the
`track_separation` window, so the degraded membership test finds nothing. -/
theorem degradedLastPlay_eq_none_of_sep {rules : RotationRules}
    {history : List PlayHistoryItem} {track : TrackMetadata} {t : Int}
    (hsorted : HistorySorted history)
    (hsep : check_separation rules history track t = true) :
    degradedLastPlay rules history track t = none := by
  cases hopt : degradedLastPlay rules history track t with
  | none => rfl
  | some item =>
    exfalso
    have hp := List.find?_some hopt
    have hmem := List.mem_of_find?_eq_some hopt
    simp only [Bool.and_eq_true, beq_iff_eq, decide_eq_true_eq] at hp
    have hid : identityMatch item.track track = true := identityMatch_true (Or.inr hp.1)
    have hfalse := trackTitleLoop_eq_false_of_id
      (sortedDesc_of_sorted hsorted) hmem hid (le_of_lt hp.2)
    have h1 : trackTitleLoop rules track t history.reverse = true := by
      have hs2 := hsep
      unfold check_separation at hs2
      rw [Bool.and_eq_true] at hs2
      exact hs2.1
    rw [hfalse] at h1
    cases h1

/-- C4: degradation monotonicity over the same shuffled pool order: if the
strict pass of `select_track` returns a track, the degraded pass (same
inputs) also returns one — degrading only relaxes eligibility. -/
theorem select_track_degradation_monotone
    (rules : RotationRules) (history : List PlayHistoryItem)
    (simulated_time : Int) (enforce_dmca : Bool)
    (pool : List TrackMetadata) (x : TrackMetadata)
    (hsorted : HistorySorted history)
    (hstrict : select_strict rules history simulated_time enforce_dmca pool = some x) :
    (select_degraded rules history simulated_time pool).isSome = true := by
  induction pool with
  | nil => simp [select_strict] at hstrict
  | cons hd tl ih =>
    rw [select_strict] at hstrict
    by_cases h1 : (!check_separation rules history hd simulated_time) = true
    · rw [if_pos h1] at hstrict
      have hrec := ih hstrict
      rw [select_degraded]
      by_cases h3 : (degradedLastPlay rules history hd simulated_time).isNone = true
      · rw [if_pos h3]; rfl
      · rw [if_neg h3]; exact hrec
    · rw [if_neg h1] at hstrict
      have hsep : check_separation rules history hd simulated_time = true := by
        cases hcs : check_separation rules history hd simulated_time
        · rw [hcs] at h1; simp at h1
        · rfl
      by_cases h2 : (enforce_dmca && !check_dmca rules history hd simulated_time) = true
      · rw [if_pos h2] at hstrict
        have hrec := ih hstrict
        rw [select_degraded]
        by_cases h3 : (degradedLastPlay rules history hd simulated_time).isNone = true
        · rw [if_pos h3]; rfl
        · rw [if_neg h3]; exact hrec
      · have hnone := degradedLastPlay_eq_none_of_sep hsorted hsep
        rw [select_degraded, if_pos (by simp [hnone])]
        rfl

theorem select_track_degradation_monotone_witness :
    (select_degraded {} [] 0 [c1track]).isSome = true :=
  select_track_degradation_monotone {} [] 0 true [c1track] c1track
    (by simp [HistorySorted]) (by decide)

/-- C5: `select_track` is a total function (normal termination, no exception:
exhaustion is the distinguishable value `none`), and its result is either
`none` or an element of the candidate list the shuffled pool permutes. -/
theorem select_track_total_in_pool
    (rules : RotationRules) (history : List PlayHistoryItem)
    (pool candidates : List TrackMetadata) (simulated_time : Int)
    (enforce_dmca : Bool) (hperm : pool.Perm candidates) :
    select_track rules history pool simulated_time enforce_dmca = none
    ∨ ∃ x, select_track rules history pool simulated_time enforce_dmca = some x
        ∧ x ∈ candidates := by
  cases hsel : select_track rules history pool simulated_time enforce_dmca with
  | none => exact Or.inl rfl
  | some x =>
    refine Or.inr ⟨x, rfl, hperm.mem_iff.mp ?_⟩
    unfold select_track at hsel
    cases hs : select_strict rules history simulated_time enforce_dmca pool with
    | some tr =>
      rw [hs] at hsel
      rw [← Option.some.inj hsel]
      exact select_strict_mem hs
    | none =>
      rw [hs] at hsel
      exact select_degraded_mem hsel

theorem select_track_total_in_pool_witness :
    select_track {} [] [c1track] 0 true = none
    ∨ ∃ x, select_track {} [] [c1track] 0 true = some x ∧ x ∈ [c1track] :=
  select_track_total_in_pool {} [] [c1track] [c1track] 0 true (List.Perm.refl _)

end NeonFrequency
namespace NeonFrequency

/-! ### Same-title separation (C3)

The first backward scan of `check_separation` breaks as soon as an entry falls
outside the `track_separation` window; a same-title entry that is inside the
`same_title_separation` window but beyond the `track_separation` window is
therefore never examined. -/

def c3rules : RotationRules :=
  { track_separation_minutes := 60, same_title_separation_minutes := 240 }

def c3track : TrackMetadata :=
  { file_path := "/music/studio.mp3", title := "Same Title", artist := "B" }

def c3item : PlayHistoryItem :=
  { track := { file_path := "/music/live.mp3", title := "same title", artist := "A" },
    played_at := -120 }

def c3btrack : TrackMetadata :=
  { file_path := "/music/b2.mp3", title := "Twice", artist := "B" }

def c3bitem : PlayHistoryItem :=
  { track := { file_path := "/music/b1.mp3", title := "twice", artist := "A" },
    played_at := -120 }

/-- C3 (counterexample): the claim fails as stated. Scenario A: with
`same_title_separation` (240) exceeding `track_separation` (60), a same-title
entry 120 minutes ago — strictly inside the title window — is missed and
`check_separation` returns `True`. Scenario B: with the default rules
(`same_title_separation` = 120), a same-title entry exactly at the boundary,
well inside the `track_separation` window, also yields `True` (the source
compares with a strict `>`). -/
theorem check_separation_title_counterexample :
    (HistorySorted [c3item]
     ∧ lowerStr c3item.track.title = lowerStr c3track.title
     ∧ 0 - c3rules.same_title_separation_minutes < c3item.played_at
     ∧ check_separation c3rules [c3item] c3track 0 = true)
    ∧ (HistorySorted [c3bitem]
     ∧ lowerStr c3bitem.track.title = lowerStr c3btrack.title
     ∧ 0 - ({} : RotationRules).same_title_separation_minutes ≤ c3bitem.played_at
     ∧ 0 - ({} : RotationRules).track_separation_minutes ≤ c3bitem.played_at
     ∧ check_separation {} [c3bitem] c3btrack 0 = true) := by
  constructor
  · exact ⟨by simp [HistorySorted], by decide, by decide, by decide⟩
  · exact ⟨by simp [HistorySorted], by decide, by decide, by decide, by decide⟩

/-- C3 (amended): for every time-ordered history, rules, track X and time t:
if some history entry whose title equals X's title case-insensitively has
`played_at` strictly within `same_title_separation` of t and also within
`track_separation` of t (the backward scan stops at the `track_separation`
cutoff, not at `max(track_separation, same_title_separation)`), then
`check_separation` returns `False`. -/
theorem check_separation_blocks_recent_title
    (rules : RotationRules) (history : List PlayHistoryItem)
    (track : TrackMetadata) (t : Int)
    (hsorted : HistorySorted history)
    (h : ∃ item ∈ history,
          lowerStr item.track.title = lowerStr track.title
          ∧ t - rules.track_separation_minutes ≤ item.played_at
          ∧ t - rules.same_title_separation_minutes < item.played_at) :
    check_separation rules history track t = false := by
  obtain ⟨item, hmem, htitle, hwin1, hwin2⟩ := h
  have hfalse := trackTitleLoop_eq_false_of_title
    (sortedDesc_of_sorted hsorted) (List.mem_reverse.mpr hmem) htitle hwin1 hwin2
  simp [check_separation, hfalse]

def c3witem : PlayHistoryItem :=
  { track := { file_path := "/music/live.mp3", title := "same title", artist := "A" },
    played_at := -30 }

theorem check_separation_blocks_recent_title_witness :
    check_separation {} [c3witem] c3track 0 = false :=
  check_separation_blocks_recent_title {} [c3witem] c3track 0
    (by simp [HistorySorted])
    ⟨c3witem, by decide, by decide, by decide, by decide⟩

/-! ### Dayparts (agents/content.py) -/

/-- The five dayparts of the broadcast day (as used by
`ShowRunner.get_current_daypart`). -/
inductive DayPart where
  | MORNING_DRIVE | MIDDAY | AFTERNOON_DRIVE | EVENING | OVERNIGHT
  deriving DecidableEq

/-- `ShowRunner.get_current_daypart` (agents/content.py): maps the wall-clock
hour to a daypart (the source reads `datetime.now().hour`; the hour-of-day is
the explicit argument here). Note the morning boundary in the source is 5,
not 6. -/
def get_current_daypart (hour : Nat) : DayPart :=
  if 5 ≤ hour ∧ hour < 10 then DayPart.MORNING_DRIVE
  else if 10 ≤ hour ∧ hour < 15 then DayPart.MIDDAY
  else if 15 ≤ hour ∧ hour < 19 then DayPart.AFTERNOON_DRIVE
  else if 19 ≤ hour ∧ hour < 24 then DayPart.EVENING
  else DayPart.OVERNIGHT

/-- C7 (counterexample): at hour 5 the code returns the morning daypart, not
overnight, so the claimed 00–06 overnight / 06–10 morning boundaries are
wrong. -/
theorem get_current_daypart_hour5_counterexample :
    get_current_daypart 5 ≠ DayPart.OVERNIGHT
    ∧ get_current_daypart 5 = DayPart.MORNING_DRIVE := by
  decide

/-- C7 (amended): the daypart mapping is a fixed function of hour-of-day with
boundaries 00–05 overnight, 05–10 morning, 10–15 midday, 15–19 afternoon,
19–24 evening. -/
theorem get_current_daypart_boundaries (h : Nat) (hlt : h < 24) :
    (get_current_daypart h = DayPart.OVERNIGHT ↔ h < 5)
    ∧ (get_current_daypart h = DayPart.MORNING_DRIVE ↔ 5 ≤ h ∧ h < 10)
    ∧ (get_current_daypart h = DayPart.MIDDAY ↔ 10 ≤ h ∧ h < 15)
    ∧ (get_current_daypart h = DayPart.AFTERNOON_DRIVE ↔ 15 ≤ h ∧ h < 19)
    ∧ (get_current_daypart h = DayPart.EVENING ↔ 19 ≤ h ∧ h < 24) := by
  interval_cases h <;> decide

theorem get_current_daypart_boundaries_witness :
    (get_current_daypart 7 = DayPart.OVERNIGHT ↔ 7 < 5)
    ∧ (get_current_daypart 7 = DayPart.MORNING_DRIVE ↔ 5 ≤ 7 ∧ 7 < 10)
    ∧ (get_current_daypart 7 = DayPart.MIDDAY ↔ 10 ≤ 7 ∧ 7 < 15)
    ∧ (get_current_daypart 7 = DayPart.AFTERNOON_DRIVE ↔ 15 ≤ 7 ∧ 7 < 19)
    ∧ (get_current_daypart 7 = DayPart.EVENING ↔ 19 ≤ 7 ∧ 7 < 24) :=
  get_current_daypart_boundaries 7 (by decide)

end NeonFrequency
namespace NeonFrequency

/-! ### Character-level string utilities (Python `in` / `split(sep, 1)`) -/

/-- Split a character list at the first occurrence of `sep` (Python
`s.split(sep, 1)` when `sep in s`); `none` when `sep` does not occur. -/
def splitFirstAux (sep : List Char) : List Char → Option (List Char × List Char)
  | [] => none
  | c :: rest =>
    if sep.isPrefixOf (c :: rest) then some ([], (c :: rest).drop sep.length)
    else (splitFirstAux sep rest).map (fun p => (c :: p.1, p.2))

/-- Python substring containment `sep in s`. -/
def containsSub (sep l : List Char) : Bool :=
  (splitFirstAux sep l).isSome

/-! ### Hour-block assembly (scheduler.py, `RadioScheduler.generate_hour_block`)

The collaborator calls of `generate_hour_block` (content generation, voice
synthesis, audio mixing, the `random.uniform` ramp simulation) are external
effects; they are supplied as oracles. A `none` outcome covers both a falsy
return value and a raised exception (the source wraps the mixing attempt in
`try/except`, and both routes set `mixed_success = False`). -/

structure HourAssemblyEnv where
  /-- `_create_voice_track(package["top_of_hour_id"], "Station ID")`. -/
  top_of_hour_id : Option TrackMetadata
  /-- `_create_voice_track(package["weather_update"], ...)`. -/
  weather_update : Option TrackMetadata
  /-- `_create_voice_track(package["news_brief"], ...)`. -/
  news_brief : Option TrackMetadata
  /-- `_create_voice_track(package["ad_lead_in"], ...)`. -/
  ad_lead_in : Option TrackMetadata
  /-- `_create_voice_track(package["ad_lead_out"], ...)`. -/
  ad_lead_out : Option TrackMetadata
  /-- `len(package["song_intros"])`. -/
  num_intros : Nat
  /-- the `random.uniform(5.0, 15.0)` draw used for demo tracks, per block-2
  iteration (seconds). -/
  ramp_sim : Nat → Int
  /-- the constrained-intro voice track of iteration `i` (`none`: text
  generation or voice synthesis failed / raised). -/
  intro_voice : Nat → Option TrackMetadata
  /-- `mixer.mix_over_intro(...)` of iteration `i` (`none`: mixing
  unavailable, returned a falsy path, or raised). -/
  mix_result : Nat → Option String
  /-- `_create_voice_track` for the sequential fallback intro of iteration
  `i`. -/
  fallback_intro : Nat → Option TrackMetadata

def optToList : Option TrackMetadata → List TrackMetadata
  | none => []
  | some t => [t]

/-- The dummy music tracks substituted when the library returns nothing
(`demo_track_1 .. demo_track_14`). -/
def demoTracks : List TrackMetadata :=
  (List.range' 1 14).map (fun i =>
    { file_path := "/music/demo_track_" ++ toString i ++ ".mp3",
      title := "Demo Track " ++ toString i,
      artist := "Unknown Artist", duration_seconds := 180 })

/-- `if not music_tracks: music_tracks = [...]`. -/
def effectiveMusic (music_tracks : List TrackMetadata) : List TrackMetadata :=
  if music_tracks.isEmpty then demoTracks else music_tracks

/-- The metadata built for a successfully mixed voice-over-intro variant. -/
def mixedTrack (mixed_path : String) (song : TrackMetadata) : TrackMetadata :=
  { file_path := mixed_path, title := song.title, artist := song.artist,
    duration_seconds := song.duration_seconds, intro_seconds := 0,
    is_generated := true, generation_prompt := some "Voice Over Ramp Mix" }

/-- `ramp_seconds`: the track's intro ramp, replaced by the simulated draw for
demo tracks whose ramp is 0. -/
def effRamp (env : HourAssemblyEnv) (i : Nat) (song : TrackMetadata) : Int :=
  if song.intro_seconds = 0 ∧ containsSub "Demo Track".data song.title.data then
    env.ramp_sim i
  else song.intro_seconds

/-- The playlist items emitted for one block-2 song that is slated for an
intro: the mixed variant when the ramp is long enough, the voice succeeded and
the mixer returned a path; otherwise the sequential fallback (optional intro
item, then the song itself). -/
def introItems (env : HourAssemblyEnv) (i : Nat) (song : TrackMetadata) :
    List TrackMetadata :=
  if effRamp env i song > 5 then
    match env.intro_voice i with
    | some _ =>
      match env.mix_result i with
      | some mp => [mixedTrack mp song]
      | none => optToList (env.fallback_intro i) ++ [song]
    | none => optToList (env.fallback_intro i) ++ [song]
  else optToList (env.fallback_intro i) ++ [song]

/-- The tracks appended by a `for _ in range(n)` fill loop starting at
`music_idx = idx` (block 1 uses `n = 3`). -/
def fillList (music : List TrackMetadata) : Nat → Nat → List TrackMetadata
  | 0, _ => []
  | n+1, idx =>
    if h : idx < music.length then music.get ⟨idx, h⟩ :: fillList music n (idx+1)
    else fillList music n idx

/-- The value of `music_idx` after that loop. -/
def fillIdx (music : List TrackMetadata) : Nat → Nat → Nat
  | 0, idx => idx
  | n+1, idx =>
    if idx < music.length then fillIdx music n (idx+1)
    else fillIdx music n idx

/-- The tracks appended by block 2 (`for i in range(3)`), iteration counter
`i`, `n` iterations left, `music_idx = idx`. -/
def block2List (env : HourAssemblyEnv) (music : List TrackMetadata) :
    Nat → Nat → Nat → List TrackMetadata
  | _, 0, _ => []
  | i, n+1, idx =>
    if h : idx < music.length then
      (if i < env.num_intros then introItems env i (music.get ⟨idx, h⟩)
       else [music.get ⟨idx, h⟩])
      ++ block2List env music (i+1) n (idx+1)
    else block2List env music (i+1) n idx

/-- `music_idx` after block 2 (it advances exactly when a song was present). -/
def block2Idx (music : List TrackMetadata) : Nat → Nat → Nat
  | 0, idx => idx
  | n+1, idx =>
    if idx < music.length then block2Idx music n (idx+1)
    else block2Idx music n idx

/-- The ad placeholder inserted after the ad lead-in. -/
def dummyAd : TrackMetadata :=
  { file_path := "/ads/dummy_ad.mp3", title := "Sponsor Message",
    artist := "Sponsor", duration_seconds := 30 }

/-- The trailing `while music_idx < len(music_tracks) and music_idx < 12`
loop. -/
def remainingMusic (music : List TrackMetadata) (idx : Nat) : List TrackMetadata :=
  if h : idx < music.length ∧ idx < 12 then
    music.get ⟨idx, h.1⟩ :: remainingMusic music (idx + 1)
  else []
termination_by 12 - idx
decreasing_by omega

/-- `RadioScheduler.generate_hour_block`, assembly of `playlist_tracks` (the
concluding `export_m3u` call writes this list out; the returned value is the
assembled playlist). -/
def generate_hour_block (env : HourAssemblyEnv)
    (music_tracks : List TrackMetadata) : List TrackMetadata :=
  let music := effectiveMusic music_tracks
  let idx1 := fillIdx music 3 0
  optToList env.top_of_hour_id ++ optToList env.weather_update
    ++ fillList music 3 0 ++ optToList env.news_brief
    ++ block2List env music 0 3 idx1
    ++ optToList env.ad_lead_in ++ [dummyAd] ++ optToList env.ad_lead_out
    ++ remainingMusic music (block2Idx music 3 idx1)

theorem fillIdx_eq_min (music : List TrackMetadata) :
    ∀ (n idx : Nat), idx ≤ music.length →
      fillIdx music n idx = min (idx + n) music.length := by
  intro n
  induction n with
  | zero => intro idx h; rw [fillIdx]; omega
  | succ m ih =>
    intro idx h
    rw [fillIdx]
    by_cases hlt : idx < music.length
    · rw [if_pos hlt, ih (idx + 1) hlt]
      omega
    · rw [if_neg hlt, ih idx h]
      omega

/-- Whatever the collaborator outcomes, the items emitted for an intro-slated
song contain the song itself or its mixed variant. -/
theorem introItems_keeps_song (env : HourAssemblyEnv) (i : Nat)
    (song : TrackMetadata) :
    song ∈ introItems env i song
    ∨ ∃ mp, env.mix_result i = some mp ∧ mixedTrack mp song ∈ introItems env i song := by
  unfold introItems
  by_cases hr : effRamp env i song > 5
  · rw [if_pos hr]
    cases hv : env.intro_voice i with
    | none =>
      left
      exact List.mem_append_right _ (List.mem_singleton_self _)
    | some v =>
      cases hm : env.mix_result i with
      | none =>
        left
        exact List.mem_append_right _ (List.mem_singleton_self _)
      | some mp =>
        right
        exact ⟨mp, rfl, List.mem_singleton_self _⟩
  · rw [if_neg hr]
    left
    exact List.mem_append_right _ (List.mem_singleton_self _)

theorem block2List_keeps (env : HourAssemblyEnv) (music : List TrackMetadata) :
    ∀ (n j i idx : Nat) (h : idx + j < music.length), j < n →
      i + j < env.num_intros →
      (music.get ⟨idx + j, h⟩ ∈ block2List env music i n idx
       ∨ ∃ mp, env.mix_result (i + j) = some mp
           ∧ mixedTrack mp (music.get ⟨idx + j, h⟩) ∈ block2List env music i n idx) := by
  intro n
  induction n with
  | zero => intro j i idx h hj; omega
  | succ m ih =>
    intro j i idx h hj hintro
    rw [block2List]
    have hidxlt : idx < music.length := by omega
    rw [dif_pos hidxlt]
    cases j with
    | zero =>
      have hi : i < env.num_intros := by omega
      rw [if_pos hi]
      have hfin : (⟨idx + 0, h⟩ : Fin music.length) = ⟨idx, hidxlt⟩ := by
        apply Fin.ext; show idx + 0 = idx; omega
      rw [hfin]
      rcases introItems_keeps_song env i (music.get ⟨idx, hidxlt⟩) with hy | ⟨mp, hmp, hy⟩
      · exact Or.inl (List.mem_append_left _ hy)
      · refine Or.inr ⟨mp, ?_, List.mem_append_left _ hy⟩
        simpa using hmp
    | succ k =>
      have h2 : (idx + 1) + k < music.length := by omega
      have hrec := ih k (i + 1) (idx + 1) h2 (by omega) (by omega)
      have hfin : (⟨idx + (k + 1), h⟩ : Fin music.length) = ⟨(idx + 1) + k, h2⟩ := by
        apply Fin.ext; show idx + (k + 1) = (idx + 1) + k; omega
      rw [hfin]
      have hik : i + (k + 1) = (i + 1) + k := by omega
      rw [hik]
      by_cases hi : i < env.num_intros
      · rw [if_pos hi]
        rcases hrec with hy | ⟨mp, hmp, hy⟩
        · exact Or.inl (List.mem_append_right _ hy)
        · exact Or.inr ⟨mp, hmp, List.mem_append_right _ hy⟩
      · rw [if_neg hi]
        rcases hrec with hy | ⟨mp, hmp, hy⟩
        · exact Or.inl (List.mem_append_right _ hy)
        · exact Or.inr ⟨mp, hmp, List.mem_append_right _ hy⟩

theorem mem_generate_hour_block_of_mem_block2 {env : HourAssemblyEnv}
    {music_tracks : List TrackMetadata} {x : TrackMetadata}
    (h : x ∈ block2List env (effectiveMusic music_tracks) 0 3
           (fillIdx (effectiveMusic music_tracks) 3 0)) :
    x ∈ generate_hour_block env music_tracks := by
  unfold generate_hour_block
  simp only [List.mem_append]
  tauto

/-- C6: during hour-block assembly, every music track slated to receive a
voice intro is in the output playlist — as the voice-over-intro mixed variant
or (when mixing is unavailable or fails) as the original track of the
sequential fallback. Failure of the mixed variant never drops the track. The
track of block-2 iteration `i` sits at index `min 3 len + i` of the effective
music list. -/
theorem generate_hour_block_keeps_intro_tracks
    (env : HourAssemblyEnv) (music_tracks : List TrackMetadata) (i : Nat)
    (hi : i < 3) (hintro : i < env.num_intros)
    (hidx : min 3 (effectiveMusic music_tracks).length + i
              < (effectiveMusic music_tracks).length) :
    ((effectiveMusic music_tracks).get ⟨min 3 (effectiveMusic music_tracks).length + i, hidx⟩
        ∈ generate_hour_block env music_tracks)
    ∨ ∃ mp, env.mix_result i = some mp
        ∧ mixedTrack mp ((effectiveMusic music_tracks).get
            ⟨min 3 (effectiveMusic music_tracks).length + i, hidx⟩)
          ∈ generate_hour_block env music_tracks := by
  have hidx1 : fillIdx (effectiveMusic music_tracks) 3 0
      = min 3 (effectiveMusic music_tracks).length := by
    rw [fillIdx_eq_min _ 3 0 (Nat.zero_le _)]
  have hidx2 : fillIdx (effectiveMusic music_tracks) 3 0 + i
      < (effectiveMusic music_tracks).length := by
    rw [hidx1]; exact hidx
  have h := block2List_keeps env (effectiveMusic music_tracks) 3 i 0
    (fillIdx (effectiveMusic music_tracks) 3 0) hidx2 hi (by omega)
  have hfin : (⟨fillIdx (effectiveMusic music_tracks) 3 0 + i, hidx2⟩
      : Fin (effectiveMusic music_tracks).length)
      = ⟨min 3 (effectiveMusic music_tracks).length + i, hidx⟩ := by
    apply Fin.ext
    show fillIdx (effectiveMusic music_tracks) 3 0 + i
      = min 3 (effectiveMusic music_tracks).length + i
    rw [hidx1]
  rw [hfin] at h
  rcases h with hy | ⟨mp, hmp, hy⟩
  · exact Or.inl (mem_generate_hour_block_of_mem_block2 hy)
  · refine Or.inr ⟨mp, by simpa using hmp, mem_generate_hour_block_of_mem_block2 hy⟩

def c6music : List TrackMetadata :=
  [ { file_path := "/music/m1.mp3", title := "M1", artist := "A1" },
    { file_path := "/music/m2.mp3", title := "M2", artist := "A2" },
    { file_path := "/music/m3.mp3", title := "M3", artist := "A3" },
    { file_path := "/music/m4.mp3", title := "M4", artist := "A4", intro_seconds := 12 },
    { file_path := "/music/m5.mp3", title := "M5", artist := "A5" },
    { file_path := "/music/m6.mp3", title := "M6", artist := "A6" } ]

def c6env : HourAssemblyEnv :=
  { top_of_hour_id := none, weather_update := none, news_brief := none,
    ad_lead_in := none, ad_lead_out := none, num_intros := 3,
    ramp_sim := fun _ => 10, intro_voice := fun _ => none,
    mix_result := fun _ => none, fallback_intro := fun _ => none }

theorem generate_hour_block_keeps_intro_tracks_witness :
    ((effectiveMusic c6music).get ⟨min 3 (effectiveMusic c6music).length + 0,
        by decide⟩ ∈ generate_hour_block c6env c6music)
    ∨ ∃ mp, c6env.mix_result 0 = some mp
        ∧ mixedTrack mp ((effectiveMusic c6music).get
            ⟨min 3 (effectiveMusic c6music).length + 0, by decide⟩)
          ∈ generate_hour_block c6env c6music :=
  generate_hour_block_keeps_intro_tracks c6env c6music 0 (by decide) (by decide)
    (by decide)

end NeonFrequency
namespace NeonFrequency

/-! ### Playlist export / import (playlist_manager.py)

`export_m3u` and `parse_m3u` work on files; the embedding works on the list
of lines (`f.write(x + "\n")` appends a line; `readlines` + `strip()` reads
them back). Fields never contain a newline in the claims considered, so the
line model is faithful. -/

/-- Python `str.strip()` whitespace class (the six ASCII whitespace chars). -/
def pyIsSpace (c : Char) : Bool :=
  c = ' ' || c = '\t' || c = '\n' || c = '\r' || c = Char.ofNat 11 || c = Char.ofNat 12

/-- Python `str.strip()`. -/
def pyStrip (l : List Char) : List Char :=
  ((l.dropWhile pyIsSpace).reverse.dropWhile pyIsSpace).reverse

/-- Decimal value of a digit string (the accumulator form of `int`). -/
def digitsVal (l : List Char) : Nat :=
  l.foldl (fun a c => a * 10 + (c.toNat - 48)) 0

/-- Decimal digits of a natural number, fuel-based so that it reduces in the
kernel (with `n ≤ fuel` the fuel never runs out: `n / 10 < n`). -/
def decDigitsAux : Nat → Nat → List Char
  | 0, n => [Nat.digitChar n]
  | f+1, n =>
    if n < 10 then [Nat.digitChar n]
    else decDigitsAux f (n / 10) ++ [Nat.digitChar (n % 10)]

/-- Decimal digits of a natural number (what `str(n)` / an f-string prints). -/
def decDigits (n : Nat) : List Char :=
  decDigitsAux n n

/-- Python `str(i)` for an int. -/
def intStr (i : Int) : List Char :=
  if i < 0 then '-' :: decDigits i.natAbs else decDigits i.toNat

/-- Truncated magnitude of a plain decimal float literal `digits[.digits]`
(`none` when `float()` would raise). Exponent and inf/nan syntaxes never occur
in exported playlists and are also mapped to `none`. -/
def pyFloatMag (l : List Char) : Option Nat :=
  let ip := l.takeWhile Char.isDigit
  let rest := l.dropWhile Char.isDigit
  match rest with
  | [] => if ip.isEmpty then none else some (digitsVal ip)
  | '.' :: frac =>
    if (ip.isEmpty && frac.isEmpty) || !(frac.all Char.isDigit) then none
    else some (digitsVal ip)
  | _ => none

/-- Python `int(float(s))`: tolerant of surrounding whitespace and a sign,
truncating toward zero. -/
def pyIntOfFloatStr (l : List Char) : Option Int :=
  let s := pyStrip l
  if s.head? = some '-' then (pyFloatMag s.tail).map (fun n => -(n : Int))
  else if s.head? = some '+' then (pyFloatMag s.tail).map (fun n => (n : Int))
  else (pyFloatMag s).map (fun n => (n : Int))

/-- `pathlib.Path(path).stem`: final component, extension removed (an
extension needs a dot at index `0 < i < len(name) - 1`). -/
def pyPathStem (path : List Char) : List Char :=
  let name := (path.reverse.takeWhile (fun c => c ≠ '/')).reverse
  let suffixLen := (name.reverse.takeWhile (fun c => c ≠ '.')).length
  if suffixLen < name.length then
    let i := name.length - 1 - suffixLen
    if 0 < i ∧ i < name.length - 1 then name.take i else name
  else name

/-- `duration = track.duration_seconds if track.duration_seconds else -1`. -/
def extinfDuration (t : TrackMetadata) : Int :=
  if t.duration_seconds ≠ 0 then t.duration_seconds else -1

/-- The `#EXTINF` info string: `"Artist - Title"` when both are truthy, else
`track.title or "Unknown Track"`. -/
def extinfInfo (t : TrackMetadata) : List Char :=
  if t.artist ≠ "" ∧ t.title ≠ "" then t.artist.data ++ " - ".data ++ t.title.data
  else if t.title ≠ "" then t.title.data
  else "Unknown Track".data

/-- `PlaylistManager.export_m3u` with `relative_paths=False` (the
`relative_paths=True` branch calls `os.path` against the real filesystem and
is outside this embedding), as the list of written lines. -/
def export_m3u (tracks : List TrackMetadata) : List (List Char) :=
  "#EXTM3U".data
    :: tracks.flatMap (fun t =>
        ["#EXTINF:".data ++ intStr (extinfDuration t) ++ [','] ++ extinfInfo t,
         t.file_path.data])

/-- The `Artist - Title` recovery of `parse_m3u` on a path line: split the
pending info string on the first `" - "`; with no separator the whole info is
the title; with no (truthy) info the title falls back to the path stem and the
artist stays `"Unknown"`. -/
def parse_artist_title (info? : Option (List Char)) (path : List Char) :
    List Char × List Char :=
  match info? with
  | some info =>
    if info.isEmpty then ("Unknown".data, pyPathStem path)
    else match splitFirstAux " - ".data info with
      | some q => (pyStrip q.1, pyStrip q.2)
      | none => ("Unknown".data, pyStrip info)
  | none => ("Unknown".data, pyPathStem path)

/-- The line loop of `PlaylistManager.parse_m3u`, carrying
`(current_info, current_duration)`. On a `#EXTINF` line with a comma, a
duration-parse failure (`except`) sets the info to `"Unknown"` and leaves the
running duration unchanged; a path line emits a track and resets the state. -/
def parse_m3u_lines (info? : Option (List Char)) (dur : Int) :
    List (List Char) → List TrackMetadata
  | [] => []
  | line :: rest =>
    let l := pyStrip line
    if l.isEmpty then parse_m3u_lines info? dur rest
    else if "#EXTINF:".data.isPrefixOf l then
      match splitFirstAux [','] (l.drop 8) with
      | some p =>
        match pyIntOfFloatStr p.1 with
        | some d => parse_m3u_lines (some p.2) d rest
        | none => parse_m3u_lines (some "Unknown".data) dur rest
      | none => parse_m3u_lines (some (l.drop 8)) dur rest
    else if ['#'].isPrefixOf l then
      parse_m3u_lines info? dur rest
    else
      let p := parse_artist_title info? l
      { file_path := String.mk l, title := String.mk p.2,
        artist := String.mk p.1, duration_seconds := dur }
        :: parse_m3u_lines none 0 rest

/-- `PlaylistManager.parse_m3u` on a list of lines. -/
def parse_m3u (lines : List (List Char)) : List TrackMetadata :=
  parse_m3u_lines none 0 lines

/-- The fields `parse_m3u` reconstructs (all other metadata is left at its
constructor default). -/
def parsedProjection (t : TrackMetadata) : TrackMetadata :=
  { file_path := t.file_path, title := t.title, artist := t.artist,
    duration_seconds := t.duration_seconds }

end NeonFrequency
namespace NeonFrequency

/-! ### Digit strings -/

theorem digitChar_isDigit {n : Nat} (h : n < 10) : (Nat.digitChar n).isDigit = true := by
  interval_cases n <;> decide

theorem digitChar_toNat {n : Nat} (h : n < 10) : (Nat.digitChar n).toNat - 48 = n := by
  interval_cases n <;> decide

theorem decDigitsAux_all_digit :
    ∀ f n, n ≤ f → ∀ c ∈ decDigitsAux f n, c.isDigit = true := by
  intro f
  induction f with
  | zero =>
    intro n hn c hc
    have : n = 0 := by omega
    subst this
    simp only [decDigitsAux, List.mem_singleton] at hc
    subst hc
    decide
  | succ f ih =>
    intro n hn c hc
    rw [decDigitsAux] at hc
    by_cases h : n < 10
    · rw [if_pos h] at hc
      simp only [List.mem_singleton] at hc
      subst hc
      exact digitChar_isDigit h
    · rw [if_neg h] at hc
      rcases List.mem_append.mp hc with hc | hc
      · exact ih (n / 10) (by omega) c hc
      · simp only [List.mem_singleton] at hc
        subst hc
        exact digitChar_isDigit (Nat.mod_lt _ (by omega))

theorem digitsVal_append_singleton (xs : List Char) (c : Char) :
    digitsVal (xs ++ [c]) = digitsVal xs * 10 + (c.toNat - 48) := by
  simp [digitsVal, List.foldl_append]

theorem digitsVal_decDigitsAux :
    ∀ f n, n ≤ f → digitsVal (decDigitsAux f n) = n := by
  intro f
  induction f with
  | zero =>
    intro n hn
    have : n = 0 := by omega
    subst this
    decide
  | succ f ih =>
    intro n hn
    rw [decDigitsAux]
    by_cases h : n < 10
    · rw [if_pos h]
      show digitsVal [Nat.digitChar n] = n
      have : digitsVal [Nat.digitChar n] = (Nat.digitChar n).toNat - 48 := by
        simp [digitsVal]
      rw [this, digitChar_toNat h]
    · rw [if_neg h, digitsVal_append_singleton,
        ih (n / 10) (by omega), digitChar_toNat (Nat.mod_lt _ (by omega))]
      omega

theorem decDigits_all_digit (n : Nat) : ∀ c ∈ decDigits n, c.isDigit = true :=
  decDigitsAux_all_digit n n le_rfl

theorem digitsVal_decDigits (n : Nat) : digitsVal (decDigits n) = n :=
  digitsVal_decDigitsAux n n le_rfl

theorem decDigitsAux_ne_nil : ∀ f n, decDigitsAux f n ≠ [] := by
  intro f
  induction f with
  | zero => intro n; simp [decDigitsAux]
  | succ f ih =>
    intro n
    rw [decDigitsAux]
    by_cases h : n < 10
    · rw [if_pos h]; simp
    · rw [if_neg h]; simp

theorem decDigits_ne_nil (n : Nat) : decDigits n ≠ [] :=
  decDigitsAux_ne_nil n n

/-! ### Prefix / strip helpers -/

theorem isPrefixOf_append_self : ∀ (x y : List Char), x.isPrefixOf (x ++ y) = true := by
  intro x y
  induction x with
  | nil => simp [List.isPrefixOf]
  | cons c cs ih => simp [List.isPrefixOf, ih]

theorem eq_cons_of_isPrefixOf_cons {a : Char} {as l : List Char}
    (h : (a :: as).isPrefixOf l = true) : ∃ t, l = a :: t := by
  cases l with
  | nil => simp [List.isPrefixOf] at h
  | cons b bs =>
    simp only [List.isPrefixOf, Bool.and_eq_true, beq_iff_eq] at h
    exact ⟨bs, by rw [h.1]⟩

theorem takeWhile_eq_self_of_all {p : Char → Bool} :
    ∀ {l : List Char}, (∀ c ∈ l, p c = true) →
      l.takeWhile p = l ∧ l.dropWhile p = [] := by
  intro l
  induction l with
  | nil => intro _; exact ⟨rfl, rfl⟩
  | cons c cs ih =>
    intro h
    have hc : p c = true := h c (List.mem_cons_self _ _)
    have := ih (fun d hd => h d (List.mem_cons_of_mem _ hd))
    rw [List.takeWhile_cons, List.dropWhile_cons, if_pos hc, if_pos hc]
    exact ⟨by rw [this.1], this.2⟩

theorem pyStrip_eq_self_of {l : List Char}
    (h1 : ∀ c ∈ l.take 1, pyIsSpace c = false)
    (h2 : ∀ c ∈ l.reverse.take 1, pyIsSpace c = false) :
    pyStrip l = l := by
  unfold pyStrip
  have e1 : l.dropWhile pyIsSpace = l := by
    cases l with
    | nil => rfl
    | cons c cs =>
      rw [List.dropWhile_cons, if_neg]
      simp [h1 c (by simp)]
  rw [e1]
  have e2 : l.reverse.dropWhile pyIsSpace = l.reverse := by
    cases hr : l.reverse with
    | nil => rfl
    | cons c cs =>
      rw [List.dropWhile_cons, if_neg]
      have : c ∈ l.reverse.take 1 := by rw [hr]; simp
      simp [h2 c this]
  rw [e2, List.reverse_reverse]

theorem digit_not_space {c : Char} (h : c.isDigit = true) : pyIsSpace c = false := by
  cases hs : pyIsSpace c
  · rfl
  · exfalso
    simp only [pyIsSpace, Bool.or_eq_true, decide_eq_true_eq] at hs
    rcases hs with ((((h1 | h1) | h1) | h1) | h1) | h1 <;> subst h1 <;> simp at h

theorem take_one_append_left {x y : List Char} (hx : x ≠ []) :
    (x ++ y).take 1 = x.take 1 := by
  cases x with
  | nil => exact absurd rfl hx
  | cons c cs => simp

theorem reverse_take_one_append {x y : List Char} (hy : y ≠ []) :
    (x ++ y).reverse.take 1 = y.reverse.take 1 := by
  rw [List.reverse_append]
  exact take_one_append_left (by simpa using hy)

end NeonFrequency
namespace NeonFrequency

/-! ### First-occurrence splitting -/

def sepDash : List Char := [' ', '-', ' ']

theorem splitFirstAux_comma : ∀ (A T : List Char), ',' ∉ A →
    splitFirstAux [','] (A ++ ',' :: T) = some (A, T) := by
  intro A
  induction A with
  | nil =>
    intro T _
    rw [List.nil_append, splitFirstAux]
    rw [if_pos (by simp [List.isPrefixOf])]
    simp
  | cons c cs ih =>
    intro T h
    have hc : ¬ (',' = c) := fun hc => h (hc ▸ List.mem_cons_self _ _)
    have hpre : [','].isPrefixOf (c :: (cs ++ ',' :: T)) = false := by
      simp [List.isPrefixOf]
      intro h2
      exact hc h2
    rw [List.cons_append, splitFirstAux]
    simp only [hpre, Bool.false_eq_true, if_false]
    rw [ih T (fun hm => h (List.mem_cons_of_mem _ hm))]
    rfl

theorem containsSub_cons_false {sep : List Char} {c : Char} {cs : List Char}
    (h : containsSub sep (c :: cs) = false) : containsSub sep cs = false := by
  unfold containsSub at h ⊢
  rw [splitFirstAux] at h
  by_cases hp : sep.isPrefixOf (c :: cs) = true
  · rw [if_pos hp] at h
    simp at h
  · rw [if_neg hp] at h
    cases ho : splitFirstAux sep cs with
    | none => rfl
    | some p => rw [ho] at h; simp at h

theorem not_suffix_of_cons {l : List Char} {c : Char} {cs : List Char}
    (h : ¬ (l <:+ c :: cs)) : ¬ (l <:+ cs) :=
  fun hs => h (hs.trans (List.suffix_cons _ _))

theorem splitFirstAux_dash : ∀ (A T : List Char),
    containsSub sepDash A = false → ¬ ([' ', '-'] <:+ A) →
    splitFirstAux sepDash (A ++ (sepDash ++ T)) = some (A, T) := by
  intro A
  induction A with
  | nil =>
    intro T _ _
    rw [List.nil_append]
    show splitFirstAux sepDash (' ' :: ('-' :: ' ' :: T)) = some ([], T)
    rw [splitFirstAux]
    rw [if_pos (by simp [sepDash, List.isPrefixOf])]
    simp [sepDash]
  | cons c cs ih =>
    intro T h1 h2
    have hpre : sepDash.isPrefixOf (c :: (cs ++ (sepDash ++ T))) = false := by
      cases hp : sepDash.isPrefixOf (c :: (cs ++ (sepDash ++ T))) with
      | false => rfl
      | true =>
        exfalso
        simp only [sepDash, List.isPrefixOf, Bool.and_eq_true, beq_iff_eq] at hp
        obtain ⟨hc, hp2⟩ := hp
        cases cs with
        | nil =>
          rw [List.nil_append] at hp2
          simp [List.isPrefixOf, List.cons_append] at hp2
        | cons d ds =>
          rw [List.cons_append] at hp2
          simp only [List.isPrefixOf, Bool.and_eq_true, beq_iff_eq] at hp2
          obtain ⟨hd, hp3⟩ := hp2
          cases ds with
          | nil =>
            apply h2
            subst hc; subst hd
            exact List.suffix_refl _
          | cons e es =>
            rw [List.cons_append] at hp3
            simp only [List.isPrefixOf, Bool.and_eq_true, beq_iff_eq] at hp3
            have he : ' ' = e := hp3.1
            have hcont : containsSub sepDash (c :: d :: e :: es) = true := by
              have hpfx : sepDash.isPrefixOf (c :: d :: e :: es) = true := by
                subst hc; subst hd; subst he
                simp [sepDash, List.isPrefixOf]
              unfold containsSub
              rw [splitFirstAux, if_pos hpfx]
              rfl
            rw [h1] at hcont
            simp at hcont
    rw [List.cons_append, splitFirstAux]
    simp only [hpre, Bool.false_eq_true, if_false]
    rw [ih T (containsSub_cons_false h1) (not_suffix_of_cons h2)]
    rfl

/-! ### Parsing the printed duration back -/

theorem pyIntOfFloatStr_decDigits (n : Nat) :
    pyIntOfFloatStr (decDigits n) = some (n : Int) := by
  have hdig := decDigits_all_digit n
  have hne := decDigits_ne_nil n
  have hstrip : pyStrip (decDigits n) = decDigits n := by
    apply pyStrip_eq_self_of
    · intro c hc
      exact digit_not_space (hdig c (List.mem_of_mem_take hc))
    · intro c hc
      exact digit_not_space (hdig c (List.mem_reverse.mp (List.mem_of_mem_take hc)))
  obtain ⟨c, cs, hcons⟩ : ∃ c cs, decDigits n = c :: cs := by
    cases hd : decDigits n with
    | nil => exact absurd hd hne
    | cons c cs => exact ⟨c, cs, rfl⟩
  have hc : c.isDigit = true := hdig c (by rw [hcons]; exact List.mem_cons_self _ _)
  have hhead : (decDigits n).head? = some c := by rw [hcons]; rfl
  have hno1 : ¬ ((decDigits n).head? = some '-') := by
    rw [hhead]
    intro heq
    have : c = '-' := by injection heq
    subst this
    simp at hc
  have hno2 : ¬ ((decDigits n).head? = some '+') := by
    rw [hhead]
    intro heq
    have : c = '+' := by injection heq
    subst this
    simp at hc
  have hTW : (decDigits n).takeWhile Char.isDigit = decDigits n
      ∧ (decDigits n).dropWhile Char.isDigit = [] :=
    takeWhile_eq_self_of_all hdig
  unfold pyIntOfFloatStr
  simp only [hstrip]
  rw [if_neg hno1, if_neg hno2]
  unfold pyFloatMag
  simp only [hTW.1, hTW.2]
  have hie : (decDigits n).isEmpty = false := by
    rw [hcons]; rfl
  simp only [hie, Bool.false_eq_true, if_false]
  rw [digitsVal_decDigits]
  rfl

end NeonFrequency
namespace NeonFrequency

theorem data_ne_nil_of_ne_empty {s : String} (h : s ≠ "") : s.data ≠ [] := by
  intro hd
  apply h
  cases s with
  | mk data =>
    rw [show ("" : String) = String.mk [] from rfl]
    rw [show (String.mk data).data = data from rfl] at hd
    rw [hd]

/-- No leading and no trailing Python whitespace. -/
def NoEdgeSpace (s : String) : Prop :=
  (∀ c ∈ s.data.take 1, pyIsSpace c = false)
  ∧ (∀ c ∈ s.data.reverse.take 1, pyIsSpace c = false)

theorem pyStrip_eq_self_of_noEdge {s : String} (h : NoEdgeSpace s) :
    pyStrip s.data = s.data :=
  pyStrip_eq_self_of h.1 h.2

/-- The hypotheses of the amended round-trip claim: positive duration,
non-empty title/artist/path, no newline in these fields, path not starting
with `#`, no surrounding whitespace on any of the three fields, and an artist
that neither contains `" - "` nor ends with `" -"`. -/
def GoodExportTrack (t : TrackMetadata) : Prop :=
  0 < t.duration_seconds
  ∧ t.title ≠ "" ∧ t.artist ≠ "" ∧ t.file_path ≠ ""
  ∧ '\n' ∉ t.file_path.data ∧ '\n' ∉ t.title.data ∧ '\n' ∉ t.artist.data
  ∧ t.file_path.data.head? ≠ some '#'
  ∧ NoEdgeSpace t.file_path ∧ NoEdgeSpace t.artist ∧ NoEdgeSpace t.title
  ∧ containsSub sepDash t.artist.data = false
  ∧ ¬ ([' ', '-'] <:+ t.artist.data)

instance (s : String) : Decidable (NoEdgeSpace s) := by
  unfold NoEdgeSpace
  exact inferInstance

instance (t : TrackMetadata) : Decidable (GoodExportTrack t) := by
  unfold GoodExportTrack
  exact inferInstance

theorem parse_m3u_lines_extinf_step (info? : Option (List Char)) (dur : Int)
    (line : List Char) (rest : List (List Char)) (A T : List Char) (d : Int)
    (hstrip : pyStrip line = "#EXTINF:".data ++ (A ++ ',' :: T))
    (hA : ',' ∉ A)
    (hd : pyIntOfFloatStr A = some d) :
    parse_m3u_lines info? dur (line :: rest) = parse_m3u_lines (some T) d rest := by
  rw [parse_m3u_lines]
  simp only [hstrip]
  have hne : ("#EXTINF:".data ++ (A ++ ',' :: T)).isEmpty = false := rfl
  have hpre : "#EXTINF:".data.isPrefixOf ("#EXTINF:".data ++ (A ++ ',' :: T)) = true :=
    isPrefixOf_append_self _ _
  have hdrop : ("#EXTINF:".data ++ (A ++ ',' :: T)).drop 8 = A ++ ',' :: T := by
    rw [show (8 : Nat) = ("#EXTINF:".data).length from rfl, List.drop_left]
  simp only [hne, hpre, Bool.false_eq_true, if_false, if_true, hdrop,
    splitFirstAux_comma A T hA, hd]

theorem parse_m3u_lines_path_step (info : List Char) (dur : Int)
    (line : List Char) (rest : List (List Char)) (A T : List Char)
    (hstrip : pyStrip line = line) (hne : line ≠ [])
    (hhead : line.head? ≠ some '#')
    (hinfo : info = A ++ (sepDash ++ T))
    (hA1 : containsSub sepDash A = false) (hA2 : ¬ ([' ', '-'] <:+ A))
    (hAne : A ≠ []) :
    parse_m3u_lines (some info) dur (line :: rest)
      = { file_path := String.mk line, title := String.mk (pyStrip T),
          artist := String.mk (pyStrip A), duration_seconds := dur }
        :: parse_m3u_lines none 0 rest := by
  rw [parse_m3u_lines]
  simp only [hstrip]
  have hie : line.isEmpty = false := by
    cases line with
    | nil => exact absurd rfl hne
    | cons c cs => rfl
  have hpre1 : "#EXTINF:".data.isPrefixOf line = false := by
    cases hp : "#EXTINF:".data.isPrefixOf line with
    | false => rfl
    | true =>
      obtain ⟨tl, htl⟩ := eq_cons_of_isPrefixOf_cons hp
      rw [htl] at hhead
      exact absurd rfl hhead
  have hpre2 : ['#'].isPrefixOf line = false := by
    cases hp : ['#'].isPrefixOf line with
    | false => rfl
    | true =>
      obtain ⟨tl, htl⟩ := eq_cons_of_isPrefixOf_cons hp
      rw [htl] at hhead
      exact absurd rfl hhead
  have hine : info.isEmpty = false := by
    rw [hinfo]
    cases A with
    | nil => exact absurd rfl hAne
    | cons c cs => rfl
  have hsplit : splitFirstAux " - ".data info = some (A, T) := by
    rw [show (" - ".data) = sepDash from rfl, hinfo]
    exact splitFirstAux_dash A T hA1 hA2
  have hat : parse_artist_title (some info) line = (pyStrip A, pyStrip T) := by
    unfold parse_artist_title
    simp only [hine, Bool.false_eq_true, if_false, hsplit]
  simp only [hie, hpre1, hpre2, Bool.false_eq_true, if_false, hat]

theorem parse_m3u_lines_header (info? : Option (List Char)) (dur : Int)
    (rest : List (List Char)) :
    parse_m3u_lines info? dur ("#EXTM3U".data :: rest)
      = parse_m3u_lines info? dur rest := rfl

end NeonFrequency
namespace NeonFrequency

theorem export_entry_parse (t : TrackMetadata) (hG : GoodExportTrack t)
    (rest : List (List Char)) :
    parse_m3u_lines none 0
      (("#EXTINF:".data ++ intStr (extinfDuration t) ++ [','] ++ extinfInfo t)
        :: t.file_path.data :: rest)
      = parsedProjection t :: parse_m3u_lines none 0 rest := by
  obtain ⟨hdur, htne, hane, hpne, -, -, -, hhash, hwP, hwA, hwT, hc1, hc2⟩ := hG
  have hdeq : extinfDuration t = t.duration_seconds := by
    unfold extinfDuration
    rw [if_pos (by omega : t.duration_seconds ≠ 0)]
  have hint : intStr (extinfDuration t) = decDigits t.duration_seconds.toNat := by
    rw [hdeq]
    unfold intStr
    rw [if_neg (by omega : ¬ t.duration_seconds < 0)]
  have hinfo : extinfInfo t = t.artist.data ++ (sepDash ++ t.title.data) := by
    unfold extinfInfo
    rw [if_pos ⟨hane, htne⟩, List.append_assoc]
    rfl
  have hAne : t.artist.data ≠ [] := data_ne_nil_of_ne_empty hane
  have hTne : t.title.data ≠ [] := data_ne_nil_of_ne_empty htne
  have hline1eq : "#EXTINF:".data ++ intStr (extinfDuration t) ++ [','] ++ extinfInfo t
      = "#EXTINF:".data
          ++ (decDigits t.duration_seconds.toNat ++ ',' :: extinfInfo t) := by
    rw [hint]
    simp [List.append_assoc]
  have hstrip1 : pyStrip ("#EXTINF:".data
        ++ (decDigits t.duration_seconds.toNat ++ ',' :: extinfInfo t))
      = "#EXTINF:".data
          ++ (decDigits t.duration_seconds.toNat ++ ',' :: extinfInfo t) := by
    apply pyStrip_eq_self_of
    · intro c hc
      have h1 : ("#EXTINF:".data
          ++ (decDigits t.duration_seconds.toNat ++ ',' :: extinfInfo t)).take 1
          = ['#'] := rfl
      rw [h1] at hc
      have : c = '#' := by simpa using hc
      subst this
      decide
    · intro c hc
      have hrw : ("#EXTINF:".data
            ++ (decDigits t.duration_seconds.toNat ++ ',' :: extinfInfo t)).reverse.take 1
          = t.title.data.reverse.take 1 := by
        rw [hinfo]
        have hassoc : "#EXTINF:".data ++ (decDigits t.duration_seconds.toNat
              ++ ',' :: (t.artist.data ++ (sepDash ++ t.title.data)))
            = ("#EXTINF:".data ++ decDigits t.duration_seconds.toNat
                ++ [','] ++ t.artist.data ++ sepDash) ++ t.title.data := by
          simp [List.append_assoc]
        rw [hassoc]
        exact reverse_take_one_append hTne
      rw [hrw] at hc
      exact hwT.2 c hc
  rw [hline1eq]
  rw [parse_m3u_lines_extinf_step none 0 _ _
    (decDigits t.duration_seconds.toNat) (extinfInfo t) t.duration_seconds hstrip1
    (fun hm => by have := decDigits_all_digit t.duration_seconds.toNat ',' hm; simp at this)
    (by rw [pyIntOfFloatStr_decDigits]
        exact congrArg some (Int.toNat_of_nonneg (le_of_lt hdur)))]
  rw [parse_m3u_lines_path_step (extinfInfo t) t.duration_seconds t.file_path.data
    rest t.artist.data t.title.data
    (pyStrip_eq_self_of_noEdge hwP) (data_ne_nil_of_ne_empty hpne) hhash hinfo
    hc1 hc2 hAne]
  congr 1
  unfold parsedProjection
  rw [pyStrip_eq_self_of_noEdge hwT, pyStrip_eq_self_of_noEdge hwA]

/-- C10 (amended): playlist export round-trip. For every track list whose
tracks have a positive `duration_seconds`, non-empty title, artist and file
path, none of those fields containing a newline, a file path that neither
starts with `#` nor has surrounding whitespace, a title and artist without
surrounding whitespace, and an artist that neither contains `" - "` nor ends
with `" -"`: `parse_m3u` applied to the `export_m3u` output returns the same
number of tracks with identical `file_path`, `title`, `artist` and
`duration_seconds`, in the same order. -/
theorem m3u_roundtrip (tracks : List TrackMetadata)
    (h : ∀ t ∈ tracks, GoodExportTrack t) :
    parse_m3u (export_m3u tracks) = tracks.map parsedProjection := by
  unfold parse_m3u export_m3u
  rw [parse_m3u_lines_header]
  induction tracks with
  | nil => rfl
  | cons t ts ih =>
    have hflat : ((t :: ts).flatMap (fun t =>
          ["#EXTINF:".data ++ intStr (extinfDuration t) ++ [','] ++ extinfInfo t,
           t.file_path.data]))
        = ("#EXTINF:".data ++ intStr (extinfDuration t) ++ [','] ++ extinfInfo t)
          :: t.file_path.data
          :: ts.flatMap (fun t =>
              ["#EXTINF:".data ++ intStr (extinfDuration t) ++ [','] ++ extinfInfo t,
               t.file_path.data]) := rfl
    rw [hflat, export_entry_parse t (h t (List.mem_cons_self _ _))]
    rw [ih (fun u hu => h u (List.mem_cons_of_mem _ hu)), List.map_cons]

def c10bad : List TrackMetadata :=
  [ { file_path := "/m/a.mp3", title := "T", artist := "A ", duration_seconds := 180 },
    { file_path := "/m/b.mp3", title := "T ", artist := "A", duration_seconds := 180 },
    { file_path := "/m/c.mp3", title := "T", artist := "B -", duration_seconds := 180 } ]

/-- C10 (counterexample): the three tracks of `c10bad` satisfy every
hypothesis of the claim as stated (positive duration; non-empty title, artist
and path; artist without `" - "`; no newlines; path without `#` or edge
whitespace), yet the parsed playlist differs: an artist with a trailing space
comes back stripped, a title with a trailing space comes back stripped, and
an artist ending in `" -"` shifts the `" - "` split point. -/
theorem m3u_roundtrip_counterexample :
    (∀ t ∈ c10bad,
        0 < t.duration_seconds ∧ t.title ≠ "" ∧ t.artist ≠ ""
        ∧ containsSub sepDash t.artist.data = false
        ∧ t.file_path ≠ "" ∧ '\n' ∉ t.file_path.data ∧ '\n' ∉ t.title.data
        ∧ '\n' ∉ t.artist.data ∧ t.file_path.data.head? ≠ some '#'
        ∧ NoEdgeSpace t.file_path)
    ∧ parse_m3u (export_m3u c10bad) ≠ c10bad.map parsedProjection
    ∧ (parse_m3u (export_m3u c10bad)).map TrackMetadata.artist = ["A", "A", "B"]
    ∧ c10bad.map TrackMetadata.artist = ["A ", "A", "B -"]
    ∧ (parse_m3u (export_m3u c10bad)).map TrackMetadata.title = ["T", "T", "- T"]
    ∧ c10bad.map TrackMetadata.title = ["T", "T ", "T"] := by
  decide

def c10good : List TrackMetadata :=
  [ { file_path := "/m/song.mp3", title := "Ti,tle", artist := "Art",
      duration_seconds := 180 },
    { file_path := "/m/b.mp3", title := "B - C", artist := "X-Y",
      duration_seconds := 7 } ]

theorem m3u_roundtrip_witness :
    parse_m3u (export_m3u c10good) = c10good.map parsedProjection :=
  m3u_roundtrip c10good (by decide)

end NeonFrequency
